import Mathlib

/-!
Verification of the oasis-chain core against its specification.

The development shallowly embeds the two core subsystems of the repository:
the confidential execution context (`src/confidential/confidential_ctx.rs`)
and the chain-state mining engine (`src/blockchain.rs`).  External
collaborators (the key manager client, the Deoxys-II AEAD cipher, the hash
functions, RLP decoding, signature recovery and the state-transition engine)
are not part of the repository's source; following the specification they
are treated as abstract services, passed in as explicit function parameters.

Bytes are modelled as natural numbers; byte strings as `List Nat`.
Rust `Result`s that can also panic (via `expect` / `unwrap`) are modelled by
the three-way outcome type `CResult`, which distinguishes an ordinary
`Error::Confidential` return from a panic.
-/

/-- Size in bytes of a Deoxys-II nonce (`NONCE_SIZE` in the crypto crate). -/
def NONCE_SIZE : Nat := 15

/-- Size in bytes of the fixed tag part of a nonce (`TAG_SIZE` in
`mrae::nonce`, imported as `NONCE_TAG_SIZE` by the source). -/
def NONCE_TAG_SIZE : Nat := 11

/-- Size in bytes of a Deoxys-II authentication tag (`TAG_SIZE` in
`mrae::deoxysii`). -/
def TAG_SIZE : Nat := 16

/-- Size in bytes of a Deoxys-II key (`KEY_SIZE` in `mrae::deoxysii`). -/
def KEY_SIZE : Nat := 32

/-- Modelled from the spec: the crypto crate's `Nonce` (the crate is not part
of the repository source).  Per the spec, a nonce is an 11-byte tag followed
by a 4-byte big-endian counter that starts at zero and strictly increases by
one per use, never repeating. -/
structure Nonce where
  tag : List Nat
  counter : Nat
deriving Repr, DecidableEq

/-- Big-endian 4-byte encoding of a counter value. -/
def toBE4 (c : Nat) : List Nat :=
  [c / 2 ^ 24 % 256, c / 2 ^ 16 % 256, c / 2 ^ 8 % 256, c % 256]

/-- Byte representation of a nonce: tag followed by the 4-byte counter. -/
def Nonce.bytes (n : Nonce) : List Nat :=
  n.tag ++ toBE4 n.counter

/-- Modelled from the spec: `Nonce::increment` of the crypto crate — the
counter advances by exactly one and the operation fails when the 4-byte
counter would overflow (a nonce value is never reused). -/
def Nonce.increment (n : Nonce) : Except String Nonce :=
  if n.counter + 1 < 2 ^ 32 then
    Except.ok { n with counter := n.counter + 1 }
  else
    Except.error "nonce overflowed"

/-- Key bundle for a confidential contract, as returned by the key-manager
client (`ContractKey` of the key-manager crate): an asymmetric input keypair
plus a symmetric state key. -/
structure ContractKey where
  input_pk : List Nat
  input_sk : List Nat
  state_key : List Nat
deriving Repr, DecidableEq

/-- Outcome of a confidential-context operation.  `ok` is the `Ok` branch of
the Rust `Result`; `confidential` is an `Err(Error::Confidential(msg))`
return; `panicked` models a Rust panic raised via `expect` or `unwrap`. -/
inductive CResult (α : Type) where
  | ok (value : α)
  | confidential (msg : String)
  | panicked (msg : String)
deriving Repr, DecidableEq

/-- Result of `crypto::decrypt` on an inbound session payload: plaintext,
the sender's public key, the starting nonce recovered from the payload, and
the associated authenticated data. -/
structure Decryption where
  plaintext : List Nat
  peer_public_key : List Nat
  nonce : Nonce
  aad : List Nat

/-- Plaintext plus associated data, as returned by `decrypt_session`
(`AuthenticatedPayload` of the VM interface). -/
structure AuthenticatedPayload where
  decrypted_data : List Nat
  additional_data : List Nat
deriving Repr, DecidableEq

/-- External collaborators of the confidential context, per the spec treated
as abstract services: the digest function of the crypto crate, the keccak
hash, the key-manager client, the Deoxys-II `seal`/`open` pair and the
session-layer `crypto::encrypt`/`crypto::decrypt` pair. -/
structure CCDeps where
  digest : List Nat → List Nat
  keccakBytes : List Nat → List Nat
  getOrCreateKeys : List Nat → ContractKey
  d2Seal : List Nat → List Nat → List Nat → List Nat
  d2Open : List Nat → List Nat → List Nat → Option (List Nat)
  cryptoEncrypt : List Nat → Nonce → List Nat → List Nat → List Nat →
    Except String (List Nat)
  cryptoDecrypt : List Nat → List Nat → Except String Decryption

/-- State of a confidential execution context
(struct `ConfidentialCtx` of `confidential_ctx.rs`).  The key-manager handle
is carried separately as part of `CCDeps`. -/
structure ConfidentialCtx where
  peer_public_key : Option (List Nat)
  contract : Option (List Nat × ContractKey)
  next_nonce : Option Nonce
  activated : Bool
  prev_block_hash : List Nat
  d2 : Option (List Nat)
  next_storage_nonce : Option Nonce
deriving Repr, DecidableEq

namespace ConfidentialCtx

/-- Constructor `ConfidentialCtx::new`. -/
def new (prev_block_hash : List Nat) : ConfidentialCtx where
  peer_public_key := none
  contract := none
  next_nonce := none
  activated := false
  prev_block_hash := prev_block_hash
  d2 := none
  next_storage_nonce := none

/-- Method `swap_contract`: installs (or clears) the active contract,
derives the Deoxys-II key from the contract's state key, derives the storage
nonce as `H(prev_block_hash ‖ address)[..11] ‖ 0x00000000`, and returns the
previously active address. -/
def swap_contract (deps : CCDeps) (ctx : ConfidentialCtx)
    (contract : Option (List Nat × ContractKey)) :
    ConfidentialCtx × Option (List Nat) :=
  let old_contract_address := ctx.contract.map (fun c => c.1)
  let d2 := contract.map (fun c => c.2.state_key.take KEY_SIZE)
  let next_storage_nonce := contract.map (fun c =>
    let buffer := ctx.prev_block_hash ++ c.1
    let hash := deps.digest buffer
    ({ tag := hash.take NONCE_TAG_SIZE, counter := 0 } : Nonce))
  ({ ctx with
      contract := contract
      d2 := d2
      next_storage_nonce := next_storage_nonce },
   old_contract_address)

/-- Method `is_encrypting` of the `ConfidentialCtx` trait implementation. -/
def is_encrypting (ctx : ConfidentialCtx) : Bool :=
  ctx.activated && ctx.contract.isSome

/-- Method `activate`: sets the activation flag; with `none` it clears the
active contract (cross-contract call into non-confidential code); with
`some address` it obtains the contract's key bundle from the key manager
(contract id = keccak of the address) and installs it.  Either way the
previously active address is returned. -/
def activate (deps : CCDeps) (ctx : ConfidentialCtx)
    (contract : Option (List Nat)) :
    ConfidentialCtx × CResult (Option (List Nat)) :=
  let ctx := { ctx with activated := true }
  match contract with
  | none =>
      let (ctx, old) := swap_contract deps ctx none
      (ctx, CResult.ok old)
  | some contract =>
      let contract_id := deps.keccakBytes contract
      let contract_key := deps.getOrCreateKeys contract_id
      let (ctx, old) := swap_contract deps ctx (some (contract, contract_key))
      (ctx, CResult.ok old)

/-- Method `deactivate`: erases all material, returning to the inactive
state. -/
def deactivate (ctx : ConfidentialCtx) : ConfidentialCtx where
  peer_public_key := none
  contract := none
  next_nonce := none
  activated := false
  prev_block_hash := ctx.prev_block_hash
  d2 := none
  next_storage_nonce := none

/-- Method `encrypt_session`: requires peer public key, active contract and
session nonce; encrypts to the peer and ratchets the session nonce. -/
def encrypt_session (deps : CCDeps) (ctx : ConfidentialCtx)
    (data : List Nat) : ConfidentialCtx × CResult (List Nat) :=
  if ctx.peer_public_key = none ∨ ctx.contract = none ∨ ctx.next_nonce = none
  then
    (ctx, CResult.confidential
      "must have key pair of a contract and peer and a next nonce")
  else
    match ctx.contract, ctx.peer_public_key, ctx.next_nonce with
    | some (_, contract_key), some peer_pk, some nonce =>
        match deps.cryptoEncrypt data nonce peer_pk contract_key.input_pk
            contract_key.input_sk with
        | Except.error e => (ctx, CResult.confidential e)
        | Except.ok encrypted_payload =>
            match nonce.increment with
            | Except.error e => (ctx, CResult.confidential e)
            | Except.ok nonce =>
                ({ ctx with next_nonce := some nonce },
                 CResult.ok encrypted_payload)
    | _, _, _ =>
        (ctx, CResult.panicked "unreachable")

/-- Method `decrypt_session`: opens an inbound payload with the active
contract's secret key (the source calls `unwrap` on the contract option, so
a missing contract is a panic), records the sender as peer, and stores the
payload's nonce plus one as the next session nonce. -/
def decrypt_session (deps : CCDeps) (ctx : ConfidentialCtx)
    (encrypted_payload : List Nat) :
    ConfidentialCtx × CResult AuthenticatedPayload :=
  match ctx.contract with
  | none => (ctx, CResult.panicked "called Option::unwrap on a None value")
  | some (_, contract_key) =>
      match deps.cryptoDecrypt encrypted_payload contract_key.input_sk with
      | Except.error e => (ctx, CResult.confidential e)
      | Except.ok decryption =>
          let ctx := { ctx with
            peer_public_key := some decryption.peer_public_key }
          match decryption.nonce.increment with
          | Except.error e => (ctx, CResult.confidential e)
          | Except.ok nonce =>
              ({ ctx with next_nonce := some nonce },
               CResult.ok
                 { decrypted_data := decryption.plaintext
                   additional_data := decryption.aad })

/-- Method `encrypt_storage_key`: deterministic encryption of a storage key
under an all-zero nonce; `&self` only, so the context is not modified.  A
missing Deoxys-II instance is a panic (`expect`). -/
def encrypt_storage_key (deps : CCDeps) (ctx : ConfidentialCtx)
    (data : List Nat) : CResult (List Nat) :=
  let nonce := List.replicate NONCE_SIZE 0
  match ctx.d2 with
  | none =>
      CResult.panicked "Should always have a Deoxys-II instance to encrypt storage"
  | some key => CResult.ok (deps.d2Seal key nonce data)

/-- Method `encrypt_storage_value`: encrypts under the current storage
nonce, appends the nonce to the tail (`ciphertext ‖ tag ‖ nonce`), then
ratchets the storage nonce.  Missing nonce or cipher is a panic. -/
def encrypt_storage_value (deps : CCDeps) (ctx : ConfidentialCtx)
    (data : List Nat) : ConfidentialCtx × CResult (List Nat) :=
  match ctx.next_storage_nonce with
  | none =>
      (ctx, CResult.panicked "Should always have a storage encryption nonce.")
  | some nonce =>
      match ctx.d2 with
      | none =>
          (ctx, CResult.panicked
            "Should always have a Deoxys-II instance to encrypt storage")
      | some key =>
          let ciphertext := deps.d2Seal key nonce.bytes data ++ nonce.bytes
          match nonce.increment with
          | Except.error e => (ctx, CResult.confidential e)
          | Except.ok nonce =>
              ({ ctx with next_storage_nonce := some nonce },
               CResult.ok ciphertext)

/-- Method `decrypt_storage_value`: rejects inputs shorter than
tag-size + nonce-size, splits the trailing nonce from the ciphertext and
opens it.  A missing cipher is a panic (`expect`), and so is an
authentication failure (`unwrap` on the `open` result). -/
def decrypt_storage_value (deps : CCDeps) (ctx : ConfidentialCtx)
    (data : List Nat) : CResult (List Nat) :=
  if data.length < TAG_SIZE + NONCE_SIZE then
    CResult.confidential "truncated ciphertext"
  else
    let nonce_offset := data.length - NONCE_SIZE
    let nonce := data.drop nonce_offset
    let ciphertext := data.take nonce_offset
    match ctx.d2 with
    | none =>
        CResult.panicked
          "Should always have a Deoxys-II instance to decrypt storage"
    | some key =>
        match deps.d2Open key nonce ciphertext with
        | none => CResult.panicked "called Option::unwrap on a None value"
        | some plaintext => CResult.ok plaintext

/-- Method `peer`: the currently established peer public key, if any. -/
def peer (ctx : ConfidentialCtx) : Option (List Nat) :=
  ctx.peer_public_key

end ConfidentialCtx

/-! ## Helper lemmas about nonces -/

/-- The 4-byte big-endian counter encoding always has length 4. -/
theorem toBE4_length (c : Nat) : (toBE4 c).length = 4 := by
  simp [toBE4]

/-- The 4-byte big-endian counter encoding is injective below `2 ^ 32`. -/
theorem toBE4_injOn {c1 c2 : Nat} (h1 : c1 < 2 ^ 32) (h2 : c2 < 2 ^ 32)
    (h : toBE4 c1 = toBE4 c2) : c1 = c2 := by
  simp only [toBE4, List.cons.injEq, and_true] at h
  omega

/-- Length of a nonce's byte representation. -/
theorem Nonce.bytes_length (n : Nonce) :
    n.bytes.length = n.tag.length + 4 := by
  simp [Nonce.bytes, toBE4]

/-- Nonces with the same tag but different in-range counters have different
byte representations. -/
theorem Nonce.bytes_ne_of_counter_ne (t : List Nat) {c1 c2 : Nat}
    (h1 : c1 < 2 ^ 32) (h2 : c2 < 2 ^ 32) (hne : c1 ≠ c2) :
    Nonce.bytes { tag := t, counter := c1 } ≠
      Nonce.bytes { tag := t, counter := c2 } := by
  intro h
  apply hne
  apply toBE4_injOn h1 h2
  exact List.append_cancel_left h

/-- Nonces with equal-length but different tags have different byte
representations, whatever their counters. -/
theorem Nonce.bytes_ne_of_tag_ne {t1 t2 : List Nat} (c1 c2 : Nat)
    (hlen : t1.length = t2.length) (hne : t1 ≠ t2) :
    Nonce.bytes { tag := t1, counter := c1 } ≠
      Nonce.bytes { tag := t2, counter := c2 } := by
  intro h
  exact hne ((List.append_inj h hlen).1)

/-! ## Claim C4: storage value encryption round trip -/

/-- Claim C4: for every plaintext `P` and every `ConfidentialCtx` with an
active contract (cipher instance and storage nonce present),
`decrypt_storage_value` applied to the output of `encrypt_storage_value P`
returns `P`.  The Deoxys-II cipher is an external collaborator, so the AEAD
inversion property (`d2Open` undoes `d2Seal`) and the ciphertext-length law
(`seal` output is plaintext length plus tag length) are hypotheses on the
supplied cipher. -/
theorem storage_value_roundtrip (deps : CCDeps) (ctx : ConfidentialCtx)
    (key : List Nat) (n : Nonce) (P : List Nat)
    (hd2 : ctx.d2 = some key)
    (hn : ctx.next_storage_nonce = some n)
    (htag : n.tag.length = NONCE_TAG_SIZE)
    (hcnt : n.counter + 1 < 2 ^ 32)
    (hlen : (deps.d2Seal key n.bytes P).length = P.length + TAG_SIZE)
    (hopen : deps.d2Open key n.bytes (deps.d2Seal key n.bytes P) = some P) :
    (ConfidentialCtx.encrypt_storage_value deps ctx P).2 =
      CResult.ok (deps.d2Seal key n.bytes P ++ n.bytes) ∧
    ConfidentialCtx.decrypt_storage_value deps
      (ConfidentialCtx.encrypt_storage_value deps ctx P).1
      (deps.d2Seal key n.bytes P ++ n.bytes) = CResult.ok P := by
  have hbytes : n.bytes.length = NONCE_SIZE := by
    rw [Nonce.bytes_length, htag]; rfl
  have hcnt' : n.counter + 1 < 4294967296 := by norm_num at hcnt; exact hcnt
  have hd2' : (ConfidentialCtx.encrypt_storage_value deps ctx P).1.d2 =
      some key := by
    simp [ConfidentialCtx.encrypt_storage_value, hn, hd2, Nonce.increment,
      hcnt']
  have hdatalen :
      (deps.d2Seal key n.bytes P ++ n.bytes).length =
        P.length + TAG_SIZE + NONCE_SIZE := by
    rw [List.length_append, hlen, hbytes]
  have hnotshort :
      ¬ (deps.d2Seal key n.bytes P ++ n.bytes).length <
          TAG_SIZE + NONCE_SIZE := by
    rw [hdatalen]; omega
  have hoff :
      (deps.d2Seal key n.bytes P ++ n.bytes).length - NONCE_SIZE =
        (deps.d2Seal key n.bytes P).length := by
    rw [hdatalen, hlen]; omega
  constructor
  · simp [ConfidentialCtx.encrypt_storage_value, hn, hd2, Nonce.increment,
      hcnt']
  · simp only [ConfidentialCtx.decrypt_storage_value, hnotshort, if_false,
      hoff, hd2']
    rw [List.drop_left, List.take_left, hopen]

/-- Toy Deoxys-II cipher used to instantiate the round-trip theorem: the
ciphertext is the plaintext followed by a 16-byte tag, and opening strips
the tag. -/
def toyDeps4 : CCDeps where
  digest := fun _ => List.replicate 32 0
  keccakBytes := fun bs => bs
  getOrCreateKeys := fun _ => { input_pk := [], input_sk := [], state_key := [] }
  d2Seal := fun _ _ data => data ++ List.replicate TAG_SIZE 0
  d2Open := fun _ _ c => some (c.take (c.length - TAG_SIZE))
  cryptoEncrypt := fun _ _ _ _ _ => Except.error "unsupported"
  cryptoDecrypt := fun _ _ => Except.error "unsupported"

/-- Context with an active cipher and storage nonce for witnessing the
round-trip theorem. -/
def toyCtx4 : ConfidentialCtx where
  peer_public_key := none
  contract := none
  next_nonce := none
  activated := true
  prev_block_hash := List.replicate 32 0
  d2 := some []
  next_storage_nonce := some { tag := List.replicate NONCE_TAG_SIZE 0, counter := 0 }

/-- Witness for claim C4 at a concrete context and plaintext. -/
theorem storage_value_roundtrip_witness :
    (ConfidentialCtx.encrypt_storage_value toyDeps4 toyCtx4 [1, 2, 3]).2 =
      CResult.ok (toyDeps4.d2Seal []
        (Nonce.bytes { tag := List.replicate NONCE_TAG_SIZE 0, counter := 0 })
        [1, 2, 3] ++
        Nonce.bytes { tag := List.replicate NONCE_TAG_SIZE 0, counter := 0 }) ∧
    ConfidentialCtx.decrypt_storage_value toyDeps4
      (ConfidentialCtx.encrypt_storage_value toyDeps4 toyCtx4 [1, 2, 3]).1
      (toyDeps4.d2Seal []
        (Nonce.bytes { tag := List.replicate NONCE_TAG_SIZE 0, counter := 0 })
        [1, 2, 3] ++
        Nonce.bytes { tag := List.replicate NONCE_TAG_SIZE 0, counter := 0 }) =
      CResult.ok [1, 2, 3] :=
  storage_value_roundtrip toyDeps4 toyCtx4 []
    { tag := List.replicate NONCE_TAG_SIZE 0, counter := 0 } [1, 2, 3]
    rfl rfl (by decide) (by norm_num) (by decide) (by decide)

/-! ## Claim C5: storage nonce derivation and ratchet -/

/-- The storage nonce derived by `swap_contract` for a given previous block
hash and contract address: the first 11 bytes of the digest of their
concatenation, with a zero counter. -/
def derivedStorageNonce (deps : CCDeps) (prev addr : List Nat) : Nonce :=
  { tag := (deps.digest (prev ++ addr)).take NONCE_TAG_SIZE, counter := 0 }

/-- Claim C5: after `activate (some address)` the storage nonce is the first
11 bytes of `hash (prev_block_hash ++ address)` followed by four zero bytes;
every successful `encrypt_storage_value` advances the counter by exactly one
(and succeeds only while the 4-byte counter is in range), so within one
activation no storage nonce is ever used twice; and whenever two
(previous-block-hash, contract-address) pairs have different 11-byte digest
truncations — the collision-freedom the spec assumes of the hash — all
nonces derived from the two pairs differ, whatever their counters. -/
theorem storage_nonce_derivation_and_ratchet :
    (∀ (deps : CCDeps) (ctx : ConfidentialCtx) (addr : List Nat),
      ((ConfidentialCtx.activate deps ctx (some addr)).1).next_storage_nonce =
        some (derivedStorageNonce deps ctx.prev_block_hash addr) ∧
      (derivedStorageNonce deps ctx.prev_block_hash addr).bytes =
        (deps.digest (ctx.prev_block_hash ++ addr)).take NONCE_TAG_SIZE ++
          [0, 0, 0, 0]) ∧
    (∀ (deps : CCDeps) (ctx ctx' : ConfidentialCtx) (n : Nonce)
        (data out : List Nat),
      ctx.next_storage_nonce = some n →
      ConfidentialCtx.encrypt_storage_value deps ctx data =
        (ctx', CResult.ok out) →
      n.counter + 1 < 2 ^ 32 ∧
        ctx'.next_storage_nonce =
          some { tag := n.tag, counter := n.counter + 1 }) ∧
    (∀ (t : List Nat) (c1 c2 : Nat), c1 < 2 ^ 32 → c2 < 2 ^ 32 → c1 ≠ c2 →
      Nonce.bytes { tag := t, counter := c1 } ≠
        Nonce.bytes { tag := t, counter := c2 }) ∧
    (∀ (deps : CCDeps) (p1 a1 p2 a2 : List Nat) (c1 c2 : Nat),
      (derivedStorageNonce deps p1 a1).tag.length =
        (derivedStorageNonce deps p2 a2).tag.length →
      (derivedStorageNonce deps p1 a1).tag ≠
        (derivedStorageNonce deps p2 a2).tag →
      Nonce.bytes { derivedStorageNonce deps p1 a1 with counter := c1 } ≠
        Nonce.bytes { derivedStorageNonce deps p2 a2 with counter := c2 }) := by
  refine ⟨?_, ?_, ?_, ?_⟩
  · intro deps ctx addr
    constructor
    · simp [ConfidentialCtx.activate, ConfidentialCtx.swap_contract,
        derivedStorageNonce]
    · simp [derivedStorageNonce, Nonce.bytes, toBE4]
  · intro deps ctx ctx' n data out hn henc
    rcases hd2 : ctx.d2 with _ | key
    · simp [ConfidentialCtx.encrypt_storage_value, hn, hd2] at henc
    · by_cases hcnt : n.counter + 1 < 2 ^ 32
      · have hcnt' : n.counter + 1 < 4294967296 := by
          norm_num at hcnt; exact hcnt
        refine ⟨hcnt, ?_⟩
        simp [ConfidentialCtx.encrypt_storage_value, hn, hd2, hcnt',
          Nonce.increment] at henc
        rw [← henc.1]
      · have hcnt' : ¬ n.counter + 1 < 4294967296 := by
          norm_num at hcnt; omega
        simp [ConfidentialCtx.encrypt_storage_value, hn, hd2, hcnt',
          Nonce.increment] at henc
  · intro t c1 c2 h1 h2 hne
    exact Nonce.bytes_ne_of_counter_ne t h1 h2 hne
  · intro deps p1 a1 p2 a2 c1 c2 hlen hne
    exact Nonce.bytes_ne_of_tag_ne c1 c2 hlen hne

/-- Toy collaborators for witnessing the storage-nonce theorem: the digest
is the identity on its input. -/
def toyDeps5 : CCDeps where
  digest := fun bs => bs
  keccakBytes := fun bs => bs
  getOrCreateKeys := fun _ => { input_pk := [], input_sk := [], state_key := List.replicate 32 7 }
  d2Seal := fun _ _ data => data ++ List.replicate TAG_SIZE 0
  d2Open := fun _ _ c => some (c.take (c.length - TAG_SIZE))
  cryptoEncrypt := fun _ _ _ _ _ => Except.error "unsupported"
  cryptoDecrypt := fun _ _ => Except.error "unsupported"

/-- Context with an active cipher and storage nonce for witnessing the
storage-nonce theorem. -/
def toyCtx5 : ConfidentialCtx where
  peer_public_key := none
  contract := none
  next_nonce := none
  activated := true
  prev_block_hash := List.replicate 32 1
  d2 := some []
  next_storage_nonce := some { tag := List.replicate NONCE_TAG_SIZE 0, counter := 0 }

/-- The nonce installed by `toyCtx5`. -/
def toyNonce5 : Nonce where
  tag := List.replicate NONCE_TAG_SIZE 0
  counter := 0

/-- Witness for claim C5 at concrete contexts, addresses and counters. -/
theorem storage_nonce_derivation_and_ratchet_witness :
    ((ConfidentialCtx.activate toyDeps5 toyCtx5 (some [9])).1
        ).next_storage_nonce =
      some (derivedStorageNonce toyDeps5 toyCtx5.prev_block_hash [9]) ∧
    ((ConfidentialCtx.encrypt_storage_value toyDeps5 toyCtx5 [5]).1
        ).next_storage_nonce =
      some { tag := toyNonce5.tag, counter := toyNonce5.counter + 1 } ∧
    Nonce.bytes { tag := toyNonce5.tag, counter := 0 } ≠
      Nonce.bytes { tag := toyNonce5.tag, counter := 1 } ∧
    Nonce.bytes { derivedStorageNonce toyDeps5 (List.replicate 32 1) [9] with counter := 0 } ≠
      Nonce.bytes { derivedStorageNonce toyDeps5 (List.replicate 32 2) [9] with counter := 3 } := by
  obtain ⟨h1, h2, h3, h4⟩ := storage_nonce_derivation_and_ratchet
  refine ⟨(h1 toyDeps5 toyCtx5 [9]).1, ?_, ?_, ?_⟩
  · exact (h2 toyDeps5 toyCtx5
      (ConfidentialCtx.encrypt_storage_value toyDeps5 toyCtx5 [5]).1
      toyNonce5 [5]
      (toyDeps5.d2Seal [] toyNonce5.bytes [5] ++ toyNonce5.bytes)
      rfl (by decide)).2
  · exact h3 toyNonce5.tag 0 1 (by norm_num) (by norm_num) (by decide)
  · exact h4 toyDeps5 (List.replicate 32 1) [9] (List.replicate 32 2) [9] 0 3
      (by decide) (by decide)

/-! ## Claims C6, C7, C8: missing material, deterministic key encryption,
is_encrypting -/

/-- Toy collaborators used for the C6 counterexample. -/
def toyDeps6 : CCDeps where
  digest := fun bs => bs
  keccakBytes := fun bs => bs
  getOrCreateKeys := fun _ => { input_pk := [], input_sk := [], state_key := List.replicate 32 7 }
  d2Seal := fun _ _ data => data ++ List.replicate TAG_SIZE 0
  d2Open := fun _ _ c => some (c.take (c.length - TAG_SIZE))
  cryptoEncrypt := fun _ _ _ _ _ => Except.error "unsupported"
  cryptoDecrypt := fun _ _ => Except.error "unsupported"

/-- Counterexample to claim C6 as stated: `decrypt_session` on a context
without an active contract does not return a descriptive "confidential"
error — the source calls `unwrap` on the contract option, which panics. -/
theorem missing_material_counterexample :
    (ConfidentialCtx.decrypt_session toyDeps6
        (ConfidentialCtx.new (List.replicate 32 0)) []).2 =
      CResult.panicked "called Option::unwrap on a None value" := by
  decide

/-- Claim C6 as amended: operations invoked with missing key or nonce
material never return plaintext.  `encrypt_session` without a peer key,
contract, or session nonce fails with a descriptive confidential error;
`decrypt_session` without an active contract, and the storage operations
without a cipher instance or storage nonce, abort with a panic (`unwrap` /
`expect`) instead of returning a confidential error; `decrypt_storage_value`
on input shorter than tag-size + nonce-size reports a confidential
"truncated ciphertext" error before consulting the cipher. -/
theorem missing_material_never_plaintext :
    (∀ (deps : CCDeps) (ctx : ConfidentialCtx) (data : List Nat),
      ctx.peer_public_key = none ∨ ctx.contract = none ∨
        ctx.next_nonce = none →
      ConfidentialCtx.encrypt_session deps ctx data =
        (ctx, CResult.confidential
          "must have key pair of a contract and peer and a next nonce")) ∧
    (∀ (deps : CCDeps) (ctx : ConfidentialCtx) (payload : List Nat),
      ctx.contract = none →
      ConfidentialCtx.decrypt_session deps ctx payload =
        (ctx, CResult.panicked "called Option::unwrap on a None value")) ∧
    (∀ (deps : CCDeps) (ctx : ConfidentialCtx) (data : List Nat),
      ctx.d2 = none →
      ConfidentialCtx.encrypt_storage_key deps ctx data =
        CResult.panicked
          "Should always have a Deoxys-II instance to encrypt storage") ∧
    (∀ (deps : CCDeps) (ctx : ConfidentialCtx) (data : List Nat),
      ctx.next_storage_nonce = none →
      ConfidentialCtx.encrypt_storage_value deps ctx data =
        (ctx, CResult.panicked
          "Should always have a storage encryption nonce.")) ∧
    (∀ (deps : CCDeps) (ctx : ConfidentialCtx) (n : Nonce) (data : List Nat),
      ctx.next_storage_nonce = some n → ctx.d2 = none →
      ConfidentialCtx.encrypt_storage_value deps ctx data =
        (ctx, CResult.panicked
          "Should always have a Deoxys-II instance to encrypt storage")) ∧
    (∀ (deps : CCDeps) (ctx : ConfidentialCtx) (data : List Nat),
      ctx.d2 = none → ¬ data.length < TAG_SIZE + NONCE_SIZE →
      ConfidentialCtx.decrypt_storage_value deps ctx data =
        CResult.panicked
          "Should always have a Deoxys-II instance to decrypt storage") ∧
    (∀ (deps : CCDeps) (ctx : ConfidentialCtx) (data : List Nat),
      data.length < TAG_SIZE + NONCE_SIZE →
      ConfidentialCtx.decrypt_storage_value deps ctx data =
        CResult.confidential "truncated ciphertext") := by
  refine ⟨?_, ?_, ?_, ?_, ?_, ?_, ?_⟩
  · intro deps ctx data h
    have h' : ctx.peer_public_key = none ∨ ctx.contract = none ∨
        ctx.next_nonce = none := h
    simp [ConfidentialCtx.encrypt_session, h']
  · intro deps ctx payload h
    simp [ConfidentialCtx.decrypt_session, h]
  · intro deps ctx data h
    simp [ConfidentialCtx.encrypt_storage_key, h]
  · intro deps ctx data h
    simp [ConfidentialCtx.encrypt_storage_value, h]
  · intro deps ctx n data hn h
    simp [ConfidentialCtx.encrypt_storage_value, hn, h]
  · intro deps ctx data h hlen
    simp [ConfidentialCtx.decrypt_storage_value, hlen, h]
  · intro deps ctx data hlen
    simp [ConfidentialCtx.decrypt_storage_value, hlen]

/-- Witness for the amended claim C6 at concrete contexts. -/
theorem missing_material_never_plaintext_witness :
    ConfidentialCtx.encrypt_session toyDeps6
        (ConfidentialCtx.new (List.replicate 32 0)) [1] =
      (ConfidentialCtx.new (List.replicate 32 0), CResult.confidential
        "must have key pair of a contract and peer and a next nonce") ∧
    ConfidentialCtx.encrypt_storage_key toyDeps6
        (ConfidentialCtx.new (List.replicate 32 0)) [1] =
      CResult.panicked
        "Should always have a Deoxys-II instance to encrypt storage" ∧
    ConfidentialCtx.encrypt_storage_value toyDeps6
        (ConfidentialCtx.new (List.replicate 32 0)) [1] =
      (ConfidentialCtx.new (List.replicate 32 0), CResult.panicked
        "Should always have a storage encryption nonce.") ∧
    ConfidentialCtx.decrypt_storage_value toyDeps6
        (ConfidentialCtx.new (List.replicate 32 0)) [1] =
      CResult.confidential "truncated ciphertext" := by
  obtain ⟨h1, _, h3, h4, _, _, h7⟩ := missing_material_never_plaintext
  refine ⟨?_, ?_, ?_, ?_⟩
  · exact h1 toyDeps6 (ConfidentialCtx.new (List.replicate 32 0)) [1]
      (Or.inl rfl)
  · exact h3 toyDeps6 (ConfidentialCtx.new (List.replicate 32 0)) [1] rfl
  · exact h4 toyDeps6 (ConfidentialCtx.new (List.replicate 32 0)) [1] rfl
  · exact h7 toyDeps6 (ConfidentialCtx.new (List.replicate 32 0)) [1]
      (by decide)

/-- Claim C7: `encrypt_storage_key` is deterministic.  With an active cipher
instance it returns exactly the seal of the data under an all-zero nonce, so
its output is a function of the cipher key and the data alone; in particular
two contexts agreeing on the cipher instance give identical ciphertext, and
the mutable storage-nonce counter is neither read nor modified (the
operation takes the context immutably and returns no updated context). -/
theorem encrypt_storage_key_deterministic :
    (∀ (deps : CCDeps) (ctx : ConfidentialCtx) (key data : List Nat),
      ctx.d2 = some key →
      ConfidentialCtx.encrypt_storage_key deps ctx data =
        CResult.ok (deps.d2Seal key (List.replicate NONCE_SIZE 0) data)) ∧
    (∀ (deps : CCDeps) (ctx1 ctx2 : ConfidentialCtx) (data : List Nat),
      ctx1.d2 = ctx2.d2 →
      ConfidentialCtx.encrypt_storage_key deps ctx1 data =
        ConfidentialCtx.encrypt_storage_key deps ctx2 data) := by
  constructor
  · intro deps ctx key data h
    simp [ConfidentialCtx.encrypt_storage_key, h]
  · intro deps ctx1 ctx2 data h
    simp [ConfidentialCtx.encrypt_storage_key, h]

/-- Witness for claim C7: two contexts that differ in their storage nonce
but share the cipher instance produce the same ciphertext. -/
theorem encrypt_storage_key_deterministic_witness :
    ConfidentialCtx.encrypt_storage_key toyDeps5 toyCtx5 [4, 2] =
      CResult.ok (toyDeps5.d2Seal [] (List.replicate NONCE_SIZE 0) [4, 2]) ∧
    ConfidentialCtx.encrypt_storage_key toyDeps5
        (ConfidentialCtx.encrypt_storage_value toyDeps5 toyCtx5 [5]).1
        [4, 2] =
      ConfidentialCtx.encrypt_storage_key toyDeps5 toyCtx5 [4, 2] :=
  ⟨(encrypt_storage_key_deterministic).1 toyDeps5 toyCtx5 [] [4, 2] rfl,
   (encrypt_storage_key_deterministic).2 toyDeps5
     (ConfidentialCtx.encrypt_storage_value toyDeps5 toyCtx5 [5]).1 toyCtx5
     [4, 2] (by decide)⟩

/-- Claim C8: `is_encrypting` is true exactly when the context has been
activated and currently has an active contract; after `activate none` (a
confidential caller calling into non-confidential code) the activation flag
is still set, yet `is_encrypting` is false, and the previously active
address is handed back. -/
theorem is_encrypting_iff :
    (∀ ctx : ConfidentialCtx,
      ConfidentialCtx.is_encrypting ctx = true ↔
        (ctx.activated = true ∧ ∃ c, ctx.contract = some c)) ∧
    (∀ (deps : CCDeps) (ctx : ConfidentialCtx),
      ((ConfidentialCtx.activate deps ctx none).1).activated = true ∧
      ConfidentialCtx.is_encrypting
        ((ConfidentialCtx.activate deps ctx none).1) = false ∧
      (ConfidentialCtx.activate deps ctx none).2 =
        CResult.ok (ctx.contract.map (fun c => c.1))) := by
  constructor
  · intro ctx
    simp [ConfidentialCtx.is_encrypting, Option.isSome_iff_exists,
      and_comm]
  · intro deps ctx
    refine ⟨?_, ?_, ?_⟩ <;>
      simp [ConfidentialCtx.activate, ConfidentialCtx.swap_contract,
        ConfidentialCtx.is_encrypting]

/-! ## Chain-state mining engine (`src/blockchain.rs`)

Hash values (`H256`), addresses, bloom filters and `U256` quantities are
modelled as natural numbers.  The external collaborators — keccak for the
block hash, RLP decoding, signature recovery, the state-transition engine
(`State::apply` + `State::commit`) and the contract-address scheme — are
supplied as the function bundle `BcDeps`. -/

/-- Constant `BLOCK_GAS_LIMIT` of `blockchain.rs`. -/
def BLOCK_GAS_LIMIT : Nat := 16000000

/-- Constant `MIN_GAS_PRICE_GWEI` of `blockchain.rs`. -/
def MIN_GAS_PRICE_GWEI : Nat := 1

/-- Transaction action (`transaction::Action`): a call to an address or
contract creation. -/
inductive TxnAction where
  | call (addr : Nat)
  | create
deriving Repr, DecidableEq

/-- A signed transaction after successful signature recovery
(`SignedTransaction` of ethcore, reduced to the fields the engine reads). -/
structure SignedTransaction where
  gas : Nat
  gas_price : Nat
  action : TxnAction
  nonce : Nat
  data : List Nat
  hash : Nat
  sender : Nat
deriving Repr, DecidableEq

/-- An undecoded-but-parsed transaction (`UnverifiedTransaction`), carrying
the declared gas read by the block-gas-limit check. -/
structure UnverifiedTransaction where
  gas : Nat
  payload : List Nat
deriving Repr, DecidableEq

/-- A log entry produced by execution (`LogEntry`). -/
structure LogEntry where
  address : Nat
  topics : List Nat
  data : List Nat
deriving Repr, DecidableEq

/-- A log entry localized to its chain position (`LocalizedLogEntry`). -/
structure LocalizedLogEntry where
  entry : LogEntry
  block_hash : Nat
  block_number : Nat
  transaction_hash : Nat
  transaction_index : Nat
  transaction_log_index : Nat
  log_index : Nat
deriving Repr, DecidableEq

/-- Receipt outcome (`TransactionOutcome` of ethcore).  The mining engine
requires the EIP-658 `statusCode` form and treats anything else as
unreachable. -/
inductive TransactionOutcome where
  | unknown
  | root (state_root : Nat)
  | statusCode (code : Nat)
deriving Repr, DecidableEq

/-- The receipt produced by the state-transition engine for one transaction
(the `outcome.receipt` of `State::apply`). -/
structure EngineReceipt where
  gas_used : Nat
  log_bloom : Nat
  logs : List LogEntry
  outcome : TransactionOutcome
deriving Repr, DecidableEq

/-- A transaction localized to its chain position
(`LocalizedTransaction`). -/
structure LocalizedTransaction where
  signed : SignedTransaction
  block_number : Nat
  block_hash : Nat
  transaction_index : Nat
deriving Repr, DecidableEq

/-- A receipt localized to its chain position (`LocalizedReceipt`). -/
structure LocalizedReceipt where
  transaction_hash : Nat
  transaction_index : Nat
  block_hash : Nat
  block_number : Nat
  cumulative_gas_used : Nat
  gas_used : Nat
  contract_address : Option Nat
  logs : List LocalizedLogEntry
  log_bloom : Nat
  outcome : TransactionOutcome
deriving Repr, DecidableEq

/-- Execution environment handed to the engine (`EnvInfo`). -/
structure EnvInfo where
  number : Nat
  timestamp : Nat
  gas_limit : Nat
  last_hashes : List Nat
deriving Repr, DecidableEq

/-- Transaction execution result returned to the submitter
(`ExecutionResult` of `blockchain.rs`). -/
structure ExecutionResult where
  cumulative_gas_used : Nat
  gas_used : Nat
  log_bloom : Nat
  logs : List LogEntry
  status_code : Nat
  output : List Nat
deriving Repr, DecidableEq

/-- A simulated Ethereum block (`EthereumBlock`). -/
structure EthereumBlock where
  number : Nat
  timestamp : Nat
  hash : Nat
  parent_hash : Nat
  gas_used : Nat
  gas_limit : Nat
  log_bloom : Nat
  logs : List LocalizedLogEntry
  transactions : List LocalizedTransaction
deriving Repr, DecidableEq

/-- External collaborators of the mining engine: the keccak-derived block
hash (`keccak(number.to_string())`), RLP decoding, signature recovery
(`SignedTransaction::new`), the state-transition engine combined with the
storage commit, the contract-address scheme for creations, and the root of
the genesis-initialized store. -/
structure BcDeps where
  blockHash : Nat → Nat
  decode : List Nat → Option UnverifiedTransaction
  recover : UnverifiedTransaction → Option SignedTransaction
  applyTxn : Nat → EnvInfo → SignedTransaction →
    Except String (EngineReceipt × List Nat × Nat)
  contractAddressOf : SignedTransaction → Nat
  genesisMkvs : Nat

/-- Configuration of a `Blockchain` instance: the minimum gas price and the
block gas limit passed to `Blockchain::new`. -/
structure BcCfg where
  gas_price : Nat
  block_gas_limit : Nat
deriving Repr, DecidableEq

/-- Constructor `EthereumBlock::new`: the block hash is derived from the
block number alone (`keccak(number.to_string())`), a documented
simplification of the source. -/
def EthereumBlock.new (deps : BcDeps) (number parent_hash timestamp gas_used
    gas_limit log_bloom : Nat) : EthereumBlock where
  number := number
  timestamp := timestamp
  hash := deps.blockHash number
  parent_hash := parent_hash
  gas_used := gas_used
  gas_limit := gas_limit
  log_bloom := log_bloom
  logs := []
  transactions := []

/-- Finite map modelled as a function into `Option`; `mapInsert` is the
overwrite-on-collision insertion of `HashMap::insert`. -/
def mapInsert {α : Type} (m : Nat → Option α) (k : Nat) (v : α) :
    Nat → Option α :=
  fun x => if x = k then some v else m x

/-- Simulated chain state (`ChainState`): best block number, block store,
number→hash index, transaction and receipt indices, and the storage root. -/
structure ChainState where
  mkvs : Nat
  block_number : Nat
  blocks : Nat → Option EthereumBlock
  block_number_to_hash : Nat → Option Nat
  transactions : Nat → Option LocalizedTransaction
  receipts : Nat → Option LocalizedReceipt

/-- Constructor `ChainState::new`: genesis block number 0, zero parent hash,
zero timestamp, zero gas used, the constant block gas limit, indexed under
its derived hash; empty transaction and receipt indices. -/
def ChainState.new (deps : BcDeps) : ChainState :=
  let genesis_block := EthereumBlock.new deps 0 0 0 0 BLOCK_GAS_LIMIT 0
  let block_hash := genesis_block.hash
  { mkvs := deps.genesisMkvs
    block_number := 0
    blocks := mapInsert (fun _ => none) block_hash genesis_block
    block_number_to_hash := mapInsert (fun _ => none) 0 block_hash
    transactions := fun _ => none
    receipts := fun _ => none }

/-- Method `ChainState::get_block_by_number`: resolve the number through the
number→hash index, then the hash through the block store. -/
def ChainState.get_block_by_number (s : ChainState) (number : Nat) :
    Option EthereumBlock :=
  (s.block_number_to_hash number).bind (fun hash => s.blocks hash)

/-- Block identifier (`BlockId` of ethcore). -/
inductive BlockId where
  | hash (h : Nat)
  | number (n : Nat)
  | latest
  | earliest
deriving Repr, DecidableEq

/-- Errors surfaced by the mining and query engine, one constructor per
distinct error message of `blockchain.rs`. -/
inductive BcError where
  | decodeFailed
  | gasLimitExceeded
  | invalidSignature
  | insufficientGasPrice
  | execFailed (msg : String)
  | blockNotFound
deriving Repr, DecidableEq

/-- Outcome of an engine operation: success, an ordinary error return, or a
panic (`expect` / `unwrap` / `unreachable`). -/
inductive BcResult (α : Type) where
  | ok (value : α)
  | err (e : BcError)
  | panicked (msg : String)
deriving Repr, DecidableEq

/-- The localized log entries synthesized for the block mined on top of
state `s`. -/
def minedLogs (deps : BcDeps) (s : ChainState) (txn : SignedTransaction)
    (receipt : EngineReceipt) : List LocalizedLogEntry :=
  receipt.logs.enum.map (fun p =>
    ({ entry := p.2
       block_hash := deps.blockHash (s.block_number + 1)
       block_number := s.block_number + 1
       transaction_hash := txn.hash
       transaction_index := 0
       transaction_log_index := p.1
       log_index := p.1 } : LocalizedLogEntry))

/-- The localized transaction record synthesized for the block mined on top
of state `s` (single-transaction block, index 0). -/
def minedTxn (deps : BcDeps) (s : ChainState) (txn : SignedTransaction) :
    LocalizedTransaction where
  signed := txn
  block_number := s.block_number + 1
  block_hash := deps.blockHash (s.block_number + 1)
  transaction_index := 0

/-- The block synthesized by mining on top of state `s`. -/
def minedBlock (deps : BcDeps) (cfg : BcCfg) (ts : Nat) (s : ChainState)
    (txn : SignedTransaction) (best : EthereumBlock)
    (receipt : EngineReceipt) : EthereumBlock where
  number := s.block_number + 1
  timestamp := ts
  hash := deps.blockHash (s.block_number + 1)
  parent_hash := best.hash
  gas_used := receipt.gas_used
  gas_limit := cfg.block_gas_limit
  log_bloom := receipt.log_bloom
  logs := minedLogs deps s txn receipt
  transactions := [minedTxn deps s txn]

/-- The localized receipt synthesized by mining on top of state `s`. -/
def minedReceipt (deps : BcDeps) (s : ChainState) (txn : SignedTransaction)
    (receipt : EngineReceipt) : LocalizedReceipt where
  transaction_hash := txn.hash
  transaction_index := 0
  block_hash := deps.blockHash (s.block_number + 1)
  block_number := s.block_number + 1
  cumulative_gas_used := receipt.gas_used
  gas_used := receipt.gas_used
  contract_address :=
    match txn.action with
    | TxnAction.call _ => none
    | TxnAction.create => some (deps.contractAddressOf txn)
  logs := minedLogs deps s txn receipt
  log_bloom := receipt.log_bloom
  outcome := receipt.outcome


/-- The execution environment built by `mine_block` on top of state `s`:
block number best+1, the given timestamp, the configured gas limit, and the
best block's hash as the only history entry. -/
def mineEnv (cfg : BcCfg) (ts : Nat) (s : ChainState)
    (best : EthereumBlock) : EnvInfo where
  number := s.block_number + 1
  timestamp := ts
  gas_limit := cfg.block_gas_limit
  last_hashes := [best.hash]

/-- The chain state produced by a successful mine on top of `s`: committed
store root, advanced best-block pointer, and the four indices extended with
the new block, its hash, the localized transaction and the receipt. -/
def minedState (deps : BcDeps) (cfg : BcCfg) (ts : Nat) (s : ChainState)
    (txn : SignedTransaction) (best : EthereumBlock)
    (receipt : EngineReceipt) (mkvs : Nat) : ChainState where
  mkvs := mkvs
  block_number := s.block_number + 1
  blocks := mapInsert s.blocks (deps.blockHash (s.block_number + 1))
    (minedBlock deps cfg ts s txn best receipt)
  block_number_to_hash := mapInsert s.block_number_to_hash
    (s.block_number + 1) (deps.blockHash (s.block_number + 1))
  transactions := mapInsert s.transactions txn.hash (minedTxn deps s txn)
  receipts := mapInsert s.receipts txn.hash (minedReceipt deps s txn receipt)

/-- The `ExecutionResult` returned for a successful mine: cumulative gas
used and gas used both equal the engine receipt's gas used. -/
def minedResult (receipt : EngineReceipt) (output : List Nat)
    (code : Nat) : ExecutionResult where
  cumulative_gas_used := receipt.gas_used
  gas_used := receipt.gas_used
  log_bloom := receipt.log_bloom
  logs := receipt.logs
  status_code := code
  output := output

namespace Blockchain

/-- Method `Blockchain::best_block_number`. -/
def best_block_number (s : ChainState) : Nat :=
  s.block_number

/-- Method `Blockchain::get_block`: resolve a block identifier through the
chain-state indices (`Latest` resolves through the best block number,
`Earliest` through number 0). -/
def get_block (s : ChainState) (id : BlockId) : Option EthereumBlock :=
  match id with
  | BlockId.hash h => s.blocks h
  | BlockId.number n => s.get_block_by_number n
  | BlockId.latest => s.get_block_by_number s.block_number
  | BlockId.earliest => s.get_block_by_number 0

/-- Method `Blockchain::get_block_unwrap`: like `get_block` but an absent
block is a "block not found" error. -/
def get_block_unwrap (s : ChainState) (id : BlockId) :
    BcResult EthereumBlock :=
  match get_block s id with
  | some blk => BcResult.ok blk
  | none => BcResult.err BcError.blockNotFound

/-- Method `Blockchain::mine_block`, the sole mutating operation: snapshot
the best block, build the environment for block number best+1 with the best
block's hash as the only history entry, run the state-transition engine
(aborting with the engine's message and an unchanged state on failure),
commit, then synthesize and index the block, the localized transaction
(single transaction, index 0), the localized receipt, advance the best-block
pointer and return the transaction hash and `ExecutionResult`.  A receipt
outcome other than an EIP-658 status code is the source's `unreachable!`
panic, raised only after the state insertions, which the model mirrors. -/
def mine_block (deps : BcDeps) (cfg : BcCfg) (timestamp : Nat)
    (s : ChainState) (txn : SignedTransaction) :
    ChainState × BcResult (Nat × ExecutionResult) :=
  match s.get_block_by_number s.block_number with
  | none => (s, BcResult.panicked "must have a best block")
  | some best_block =>
    match deps.applyTxn s.mkvs (mineEnv cfg timestamp s best_block) txn with
    | Except.error err => (s, BcResult.err (BcError.execFailed err))
    | Except.ok (receipt, output, mkvs) =>
      let s1 := minedState deps cfg timestamp s txn best_block receipt mkvs
      match receipt.outcome with
      | TransactionOutcome.statusCode code =>
          (s1, BcResult.ok (txn.hash, minedResult receipt output code))
      | _ => (s1, BcResult.panicked "we always use EIP-658 semantics")

/-- Method `Blockchain::send_raw_transaction`: decode, check the declared
gas against the block gas limit, recover the signature, check the gas price
against the configured minimum, then mine. -/
def send_raw_transaction (deps : BcDeps) (cfg : BcCfg) (timestamp : Nat)
    (s : ChainState) (raw : List Nat) :
    ChainState × BcResult (Nat × ExecutionResult) :=
  match deps.decode raw with
  | none => (s, BcResult.err BcError.decodeFailed)
  | some decoded =>
    if decoded.gas > cfg.block_gas_limit then
      (s, BcResult.err BcError.gasLimitExceeded)
    else
      match deps.recover decoded with
      | none => (s, BcResult.err BcError.invalidSignature)
      | some txn =>
        if txn.gas_price < cfg.gas_price then
          (s, BcResult.err BcError.insufficientGasPrice)
        else
          mine_block deps cfg timestamp s txn

/-- Fetch the blocks of the given numbers in order, as the log query's
per-number `get_block_by_number(...).expect("block should exist")` loop. -/
def fetchBlocks (s : ChainState) : List Nat → BcResult (List EthereumBlock)
  | [] => BcResult.ok []
  | n :: rest =>
    match s.get_block_by_number n with
    | none => BcResult.panicked "block should exist"
    | some blk =>
      match fetchBlocks s rest with
      | BcResult.ok blks => BcResult.ok (blk :: blks)
      | BcResult.err e => BcResult.err e
      | BcResult.panicked m => BcResult.panicked m

/-- Log filter (`Filter` of ethcore): from/to block identifiers plus the
address/topic predicate, kept abstract as its `matches` function. -/
structure Filter where
  from_block : BlockId
  to_block : BlockId
  matchesLog : LocalizedLogEntry → Bool

/-- Stable insertion of a log entry into a list ordered by block number
(the entry is placed before the first strictly larger key, after equal
ones seen so far from the left). -/
def insertByBn (x : LocalizedLogEntry) :
    List LocalizedLogEntry → List LocalizedLogEntry
  | [] => [x]
  | y :: ys =>
    if x.block_number ≤ y.block_number then x :: y :: ys
    else y :: insertByBn x ys

/-- Stable sort by block number, modelling `sort_by(block_number)` of the
log query (Rust's `sort_by` is stable). -/
def sortByBn : List LocalizedLogEntry → List LocalizedLogEntry
  | [] => []
  | x :: xs => insertByBn x (sortByBn xs)

/-- Method `Blockchain::logs`: resolve the from/to identifiers (an absent
endpoint aborts the query with "block not found"), fetch every block in the
inclusive number range in order, flatten their log entries, filter by the
predicate, and sort ascending by block number. -/
def logs (s : ChainState) (filter : Filter) :
    BcResult (List LocalizedLogEntry) :=
  match get_block_unwrap s filter.from_block with
  | BcResult.err e => BcResult.err e
  | BcResult.panicked m => BcResult.panicked m
  | BcResult.ok from_blk =>
    match get_block_unwrap s filter.to_block with
    | BcResult.err e => BcResult.err e
    | BcResult.panicked m => BcResult.panicked m
    | BcResult.ok to_blk =>
      let from_block := from_blk.number
      let to_block := to_blk.number
      match fetchBlocks s (List.range' from_block (to_block + 1 - from_block)) with
      | BcResult.err e => BcResult.err e
      | BcResult.panicked m => BcResult.panicked m
      | BcResult.ok blocks =>
        BcResult.ok (sortByBn
          ((blocks.flatMap (fun blk => blk.logs)).filter filter.matchesLog))

end Blockchain

/-! ## Chain invariant and mining inversion -/

/-- The chain-shape invariant of a reachable `ChainState`: every number up
to the best block number is indexed to the derived hash of a stored block
whose number and hash agree with its index, whose parent hash is the derived
hash of its predecessor (zero for genesis), and whose localized logs carry
its own block number; nothing is indexed above the best block number; and
every stored block's number is at most the best block number. -/
structure ChainInv (deps : BcDeps) (s : ChainState) : Prop where
  indexed : ∀ i, i ≤ s.block_number →
    s.block_number_to_hash i = some (deps.blockHash i)
  stored : ∀ i, i ≤ s.block_number →
    ∃ b, s.blocks (deps.blockHash i) = some b ∧
      b.number = i ∧ b.hash = deps.blockHash i ∧
      (i = 0 → b.parent_hash = 0) ∧
      (∀ j, i = j + 1 → b.parent_hash = deps.blockHash j) ∧
      (∀ log ∈ b.logs, log.block_number = i)
  above : ∀ i, s.block_number < i → s.block_number_to_hash i = none
  numbers : ∀ h b, s.blocks h = some b → b.number ≤ s.block_number

/-- Under the invariant, every number up to the best block resolves to its
stored block through `get_block_by_number`. -/
theorem ChainInv.get_by_number {deps : BcDeps} {s : ChainState}
    (hinv : ChainInv deps s) {i : Nat} (hi : i ≤ s.block_number) :
    ∃ b, s.get_block_by_number i = some b ∧
      b.number = i ∧ b.hash = deps.blockHash i ∧
      (i = 0 → b.parent_hash = 0) ∧
      (∀ j, i = j + 1 → b.parent_hash = deps.blockHash j) ∧
      (∀ log ∈ b.logs, log.block_number = i) := by
  obtain ⟨b, hb, hrest⟩ := hinv.stored i hi
  refine ⟨b, ?_, hrest⟩
  simp [ChainState.get_block_by_number, hinv.indexed i hi, hb]

/-- The genesis state satisfies the chain invariant. -/
theorem genesis_chainInv (deps : BcDeps) : ChainInv deps (ChainState.new deps) := by
  constructor
  · intro i hi
    have h0 : i = 0 := by simpa [ChainState.new] using hi
    subst h0
    simp [ChainState.new, mapInsert, EthereumBlock.new]
  · intro i hi
    have h0 : i = 0 := by simpa [ChainState.new] using hi
    subst h0
    refine ⟨EthereumBlock.new deps 0 0 0 0 BLOCK_GAS_LIMIT 0, ?_⟩
    simp [ChainState.new, mapInsert, EthereumBlock.new]
  · intro i hi
    simp only [ChainState.new, mapInsert]
    have : i ≠ 0 := by omega
    simp [this]
  · intro h b hb
    simp only [ChainState.new, mapInsert] at hb
    by_cases hh : h = (EthereumBlock.new deps 0 0 0 0 BLOCK_GAS_LIMIT 0).hash
    · simp [hh] at hb
      simp [← hb, EthereumBlock.new]
    · simp [hh] at hb

/-- Inversion of a successful `mine_block`: it found a best block, the
engine succeeded with an EIP-658 status-code outcome, the returned hash is
the transaction's hash, the result is the synthesized `ExecutionResult`, and
the new state is the extended chain state. -/
theorem mine_block_ok_inv (deps : BcDeps) (cfg : BcCfg) (ts : Nat)
    (s s' : ChainState) (txn : SignedTransaction) (h : Nat)
    (res : ExecutionResult)
    (hmine : Blockchain.mine_block deps cfg ts s txn =
      (s', BcResult.ok (h, res))) :
    ∃ best receipt output mkvs code,
      s.get_block_by_number s.block_number = some best ∧
      deps.applyTxn s.mkvs (mineEnv cfg ts s best) txn =
        Except.ok (receipt, output, mkvs) ∧
      receipt.outcome = TransactionOutcome.statusCode code ∧
      h = txn.hash ∧
      res = minedResult receipt output code ∧
      s' = minedState deps cfg ts s txn best receipt mkvs := by
  unfold Blockchain.mine_block at hmine
  split at hmine
  · simp at hmine
  · rename_i best hbest
    split at hmine
    · simp at hmine
    · rename_i receipt output mkvs happly
      dsimp only at hmine
      split at hmine
      · rename_i code hout
        injection hmine with h1 h2
        injection h2 with h2
        injection h2 with h3 h4
        exact ⟨best, receipt, output, mkvs, code, hbest, happly, hout,
          h3.symm, h4.symm, h1.symm⟩
      · rename_i hout
        simp at hmine

/-- Inversion of a `mine_block` that returned an ordinary error: the state
is unchanged and the error is the engine's execution failure. -/
theorem mine_block_err_inv (deps : BcDeps) (cfg : BcCfg) (ts : Nat)
    (s s' : ChainState) (txn : SignedTransaction) (e : BcError)
    (hmine : Blockchain.mine_block deps cfg ts s txn =
      (s', BcResult.err e)) :
    s' = s ∧ ∃ msg, e = BcError.execFailed msg := by
  unfold Blockchain.mine_block at hmine
  split at hmine
  · simp at hmine
  · rename_i best hbest
    split at hmine
    · rename_i msg happly
      injection hmine with h1 h2
      injection h2 with h2
      exact ⟨h1.symm, msg, h2.symm⟩
    · rename_i receipt output mkvs happly
      dsimp only at hmine
      split at hmine
      · simp at hmine
      · simp at hmine

/-- A successful mine preserves the chain invariant and advances the best
block number by one, provided the block-hash derivation is injective (the
keccak collaborator never collides on distinct block numbers). -/
theorem mine_block_preserves (deps : BcDeps) (cfg : BcCfg) (ts : Nat)
    (s s' : ChainState) (txn : SignedTransaction) (h : Nat)
    (res : ExecutionResult)
    (hinj : Function.Injective deps.blockHash)
    (hinv : ChainInv deps s)
    (hmine : Blockchain.mine_block deps cfg ts s txn =
      (s', BcResult.ok (h, res))) :
    ChainInv deps s' ∧ s'.block_number = s.block_number + 1 := by
  obtain ⟨best, receipt, output, mkvs, code, hbest, happly, hout, hh, hres,
    hs'⟩ := mine_block_ok_inv deps cfg ts s s' txn h res hmine
  subst hs'
  obtain ⟨b, hb, hbnum, hbhash, -, -, -⟩ :=
    hinv.get_by_number (le_refl s.block_number)
  rw [hbest] at hb
  injection hb with hb
  subst hb
  refine ⟨⟨?_, ?_, ?_, ?_⟩, by simp [minedState]⟩
  · intro i hi
    simp only [minedState] at hi ⊢
    by_cases hieq : i = s.block_number + 1
    · subst hieq
      simp [mapInsert]
    · have hile : i ≤ s.block_number := by omega
      simp only [mapInsert, if_neg hieq]
      exact hinv.indexed i hile
  · intro i hi
    simp only [minedState] at hi ⊢
    by_cases hieq : i = s.block_number + 1
    · subst hieq
      refine ⟨minedBlock deps cfg ts s txn best receipt, ?_, ?_, ?_, ?_, ?_,
        ?_⟩
      · simp [mapInsert]
      · simp [minedBlock]
      · simp [minedBlock]
      · omega
      · intro j hj
        have hjeq : j = s.block_number := by omega
        subst hjeq
        simp only [minedBlock]
        exact hbhash
      · intro log hlog
        simp only [minedBlock, minedLogs, List.mem_map] at hlog
        obtain ⟨p, -, hp⟩ := hlog
        rw [← hp]
    · have hile : i ≤ s.block_number := by omega
      obtain ⟨blk, hblk, hrest⟩ := hinv.stored i hile
      have hne : deps.blockHash i ≠ deps.blockHash (s.block_number + 1) :=
        fun hcontra => hieq (hinj hcontra)
      refine ⟨blk, ?_, hrest⟩
      simp only [mapInsert, if_neg hne]
      exact hblk
  · intro i hi
    simp only [minedState] at hi ⊢
    have h1 : i ≠ s.block_number + 1 := by omega
    have h2 : s.block_number < i := by omega
    simp only [mapInsert, if_neg h1]
    exact hinv.above i h2
  · intro key blk hblk
    simp only [minedState, mapInsert] at hblk ⊢
    by_cases hkey : key = deps.blockHash (s.block_number + 1)
    · rw [if_pos hkey] at hblk
      injection hblk with hblk
      rw [← hblk]
      simp [minedBlock]
    · rw [if_neg hkey] at hblk
      have := hinv.numbers key blk hblk
      omega

/-- A successful `send_raw_transaction` is a successful `mine_block` on the
recovered transaction. -/
theorem send_raw_ok_to_mine (deps : BcDeps) (cfg : BcCfg) (ts : Nat)
    (s s' : ChainState) (raw : List Nat) (r : Nat × ExecutionResult)
    (hsend : Blockchain.send_raw_transaction deps cfg ts s raw =
      (s', BcResult.ok r)) :
    ∃ txn, Blockchain.mine_block deps cfg ts s txn = (s', BcResult.ok r) := by
  unfold Blockchain.send_raw_transaction at hsend
  split at hsend
  · simp at hsend
  · split at hsend
    · simp at hsend
    · split at hsend
      · simp at hsend
      · rename_i txn hrec
        split at hsend
        · simp at hsend
        · exact ⟨txn, hsend⟩

/-- Iterated submission used to state the sequencing claim: `some s` exactly
when every raw transaction in the list (paired with its submission
timestamp) was accepted, threading the chain state through. -/
def sendManyOk (deps : BcDeps) (cfg : BcCfg) :
    List (List Nat × Nat) → ChainState → Option ChainState
  | [], s => some s
  | input :: rest, s =>
    match Blockchain.send_raw_transaction deps cfg input.2 s input.1 with
    | (s', BcResult.ok _) => sendManyOk deps cfg rest s'
    | _ => none

/-- Any run of successful submissions preserves the chain invariant and
advances the best block number by the number of submissions. -/
theorem sendManyOk_preserves (deps : BcDeps) (cfg : BcCfg)
    (inputs : List (List Nat × Nat)) (s s' : ChainState)
    (hinj : Function.Injective deps.blockHash)
    (hinv : ChainInv deps s)
    (hrun : sendManyOk deps cfg inputs s = some s') :
    ChainInv deps s' ∧ s'.block_number = s.block_number + inputs.length := by
  induction inputs generalizing s with
  | nil =>
    simp only [sendManyOk] at hrun
    injection hrun with hrun
    subst hrun
    simpa using hinv
  | cons input rest ih =>
    unfold sendManyOk at hrun
    split at hrun
    · rename_i s1 r hstep
      obtain ⟨txn, hmine⟩ :=
        send_raw_ok_to_mine deps cfg input.2 s s1 input.1 r hstep
      obtain ⟨hinv1, hbn1⟩ := mine_block_preserves deps cfg input.2 s s1 txn
        r.1 r.2 hinj hinv (by rw [hmine])
      obtain ⟨hinv2, hbn2⟩ := ih s1 hinv1 hrun
      refine ⟨hinv2, ?_⟩
      rw [hbn2, hbn1]
      simp [List.length_cons]
      omega
    · exact absurd hrun (by simp)

/-! ## Claim C1: chain sequencing -/

/-- Claim C1: a chain reached from genesis by N accepted
`send_raw_transaction` calls has `best_block_number` = N; block numbers are
contiguous from 0 (a block exists at every number up to N and none above);
each block's recorded number equals its index; block i+1's parent hash is
block i's hash; and the genesis block has number 0 and zero parent hash.
The keccak-derived block hash is assumed injective on block numbers (a
collision in the external hash would silently overwrite a block in the
hash-keyed store). -/
theorem chain_sequencing (deps : BcDeps) (cfg : BcCfg)
    (inputs : List (List Nat × Nat)) (s : ChainState)
    (hinj : Function.Injective deps.blockHash)
    (hrun : sendManyOk deps cfg inputs (ChainState.new deps) = some s) :
    Blockchain.best_block_number s = inputs.length ∧
    (∀ i, i ≤ inputs.length →
      ∃ b, s.get_block_by_number i = some b ∧ b.number = i) ∧
    (∀ i, inputs.length < i → s.get_block_by_number i = none) ∧
    (∀ i b b', s.get_block_by_number (i + 1) = some b →
      s.get_block_by_number i = some b' → b.parent_hash = b'.hash) ∧
    (∃ g, s.get_block_by_number 0 = some g ∧ g.number = 0 ∧
      g.parent_hash = 0) := by
  obtain ⟨hinv, hbn⟩ := sendManyOk_preserves deps cfg inputs
    (ChainState.new deps) s hinj (genesis_chainInv deps) hrun
  have hbn' : s.block_number = inputs.length := by
    simpa [ChainState.new] using hbn
  refine ⟨hbn', ?_, ?_, ?_, ?_⟩
  · intro i hi
    obtain ⟨b, hb, hnum, -⟩ := hinv.get_by_number (i := i) (by omega)
    exact ⟨b, hb, hnum⟩
  · intro i hi
    have : s.block_number < i := by omega
    simp [ChainState.get_block_by_number, hinv.above i this]
  · intro i b b' hb hb'
    have hle : i + 1 ≤ s.block_number := by
      by_contra hgt
      rw [ChainState.get_block_by_number, hinv.above (i + 1) (by omega)]
        at hb
      simp at hb
    obtain ⟨b1, hb1, -, -, -, hpar, -⟩ := hinv.get_by_number hle
    obtain ⟨b2, hb2, -, hhash, -, -, -⟩ :=
      hinv.get_by_number (i := i) (by omega)
    rw [hb] at hb1
    injection hb1 with hb1
    rw [hb'] at hb2
    injection hb2 with hb2
    subst hb1
    subst hb2
    rw [hpar i rfl, hhash]
  · obtain ⟨g, hg, hnum, -, hzero, -, -⟩ :=
      hinv.get_by_number (i := 0) (by omega)
    exact ⟨g, hg, hnum, hzero rfl⟩

/-- Fixed transaction recovered by the toy decoder. -/
def toyTxn : SignedTransaction where
  gas := 21000
  gas_price := 2
  action := TxnAction.call 5
  nonce := 0
  data := []
  hash := 77
  sender := 1

/-- Fixed receipt produced by the toy engine. -/
def toyReceipt : EngineReceipt where
  gas_used := 21000
  log_bloom := 0
  logs := []
  outcome := TransactionOutcome.statusCode 1

/-- Toy collaborators for witnessing the mining-engine claims: an injective
block-hash derivation, a decoder and recoverer accepting a fixed
transaction, and an engine that always succeeds with status code 1. -/
def toyBcDeps : BcDeps where
  blockHash := fun n => n + 100
  decode := fun _ => some { gas := 21000, payload := [] }
  recover := fun _ => some toyTxn
  applyTxn := fun mkvs _ _ => Except.ok (toyReceipt, [], mkvs)
  contractAddressOf := fun _ => 9
  genesisMkvs := 0

/-- Toy configuration mirroring the source constants. -/
def toyBcCfg : BcCfg where
  gas_price := MIN_GAS_PRICE_GWEI
  block_gas_limit := BLOCK_GAS_LIMIT

/-- Witness for claim C1: one accepted submission on top of genesis yields
best block number 1. -/
theorem chain_sequencing_witness :
    Blockchain.best_block_number
      ((Blockchain.send_raw_transaction toyBcDeps toyBcCfg 5
        (ChainState.new toyBcDeps) []).1) = 1 := by
  have h := chain_sequencing toyBcDeps toyBcCfg [([], 5)]
    ((Blockchain.send_raw_transaction toyBcDeps toyBcCfg 5
      (ChainState.new toyBcDeps) []).1)
    (fun a b hab => by simp only [toyBcDeps] at hab; omega)
    rfl
  simpa using h.1

/-! ## Claim C2: validation order of send_raw_transaction -/

/-- Claim C2: `send_raw_transaction` fails with a decoding error when the
bytes do not decode; otherwise rejects with a gas-limit error when the
declared gas exceeds the configured block gas limit; otherwise rejects with
a signature error when recovery fails; otherwise rejects with an
insufficient-gas-price error when the offered gas price is below the
configured minimum; otherwise it proceeds to mining (returning the
transaction hash and an `ExecutionResult` when the mine succeeds). -/
theorem send_raw_transaction_checks (deps : BcDeps) (cfg : BcCfg) (ts : Nat)
    (s : ChainState) (raw : List Nat) :
    (deps.decode raw = none →
      Blockchain.send_raw_transaction deps cfg ts s raw =
        (s, BcResult.err BcError.decodeFailed)) ∧
    (∀ u, deps.decode raw = some u → u.gas > cfg.block_gas_limit →
      Blockchain.send_raw_transaction deps cfg ts s raw =
        (s, BcResult.err BcError.gasLimitExceeded)) ∧
    (∀ u, deps.decode raw = some u → ¬ u.gas > cfg.block_gas_limit →
      deps.recover u = none →
      Blockchain.send_raw_transaction deps cfg ts s raw =
        (s, BcResult.err BcError.invalidSignature)) ∧
    (∀ u t, deps.decode raw = some u → ¬ u.gas > cfg.block_gas_limit →
      deps.recover u = some t → t.gas_price < cfg.gas_price →
      Blockchain.send_raw_transaction deps cfg ts s raw =
        (s, BcResult.err BcError.insufficientGasPrice)) ∧
    (∀ u t, deps.decode raw = some u → ¬ u.gas > cfg.block_gas_limit →
      deps.recover u = some t → ¬ t.gas_price < cfg.gas_price →
      Blockchain.send_raw_transaction deps cfg ts s raw =
        Blockchain.mine_block deps cfg ts s t) := by
  refine ⟨?_, ?_, ?_, ?_, ?_⟩
  · intro hdec
    simp [Blockchain.send_raw_transaction, hdec]
  · intro u hdec hgas
    simp [Blockchain.send_raw_transaction, hdec, hgas]
  · intro u hdec hgas hrec
    simp [Blockchain.send_raw_transaction, hdec, hgas, hrec]
  · intro u t hdec hgas hrec hprice
    simp [Blockchain.send_raw_transaction, hdec, hgas, hrec, hprice]
  · intro u t hdec hgas hrec hprice
    simp [Blockchain.send_raw_transaction, hdec, hgas, hrec, hprice]

/-- Toy collaborators whose decoder and recoverer read the raw bytes, so
that each validation stage of claim C2 can be reached by choosing input. -/
def toyBcDeps2 : BcDeps where
  blockHash := fun n => n + 100
  decode := fun raw =>
    match raw with
    | [] => none
    | g :: rest => some { gas := g, payload := rest }
  recover := fun u =>
    match u.payload with
    | [] => none
    | p :: _ => some { toyTxn with gas := u.gas, gas_price := p }
  applyTxn := fun mkvs _ _ => Except.ok (toyReceipt, [], mkvs)
  contractAddressOf := fun _ => 9
  genesisMkvs := 0

/-- Witness for claim C2: each validation stage reached at a concrete
input. -/
theorem send_raw_transaction_checks_witness :
    Blockchain.send_raw_transaction toyBcDeps2 toyBcCfg 5
      (ChainState.new toyBcDeps2) [] =
      (ChainState.new toyBcDeps2, BcResult.err BcError.decodeFailed) ∧
    Blockchain.send_raw_transaction toyBcDeps2 toyBcCfg 5
      (ChainState.new toyBcDeps2) [16000001] =
      (ChainState.new toyBcDeps2, BcResult.err BcError.gasLimitExceeded) ∧
    Blockchain.send_raw_transaction toyBcDeps2 toyBcCfg 5
      (ChainState.new toyBcDeps2) [21000] =
      (ChainState.new toyBcDeps2, BcResult.err BcError.invalidSignature) ∧
    Blockchain.send_raw_transaction toyBcDeps2 toyBcCfg 5
      (ChainState.new toyBcDeps2) [21000, 0] =
      (ChainState.new toyBcDeps2,
        BcResult.err BcError.insufficientGasPrice) ∧
    Blockchain.send_raw_transaction toyBcDeps2 toyBcCfg 5
      (ChainState.new toyBcDeps2) [21000, 2] =
      Blockchain.mine_block toyBcDeps2 toyBcCfg 5 (ChainState.new toyBcDeps2)
        { toyTxn with gas := 21000, gas_price := 2 } := by
  obtain ⟨h1, h2, h3, h4, h5⟩ := send_raw_transaction_checks toyBcDeps2
    toyBcCfg 5 (ChainState.new toyBcDeps2) []
  refine ⟨h1 rfl, ?_, ?_, ?_, ?_⟩
  · exact (send_raw_transaction_checks toyBcDeps2 toyBcCfg 5
      (ChainState.new toyBcDeps2) [16000001]).2.1
      { gas := 16000001, payload := [] } rfl (by decide)
  · exact (send_raw_transaction_checks toyBcDeps2 toyBcCfg 5
      (ChainState.new toyBcDeps2) [21000]).2.2.1
      { gas := 21000, payload := [] } rfl (by decide) rfl
  · exact (send_raw_transaction_checks toyBcDeps2 toyBcCfg 5
      (ChainState.new toyBcDeps2) [21000, 0]).2.2.2.1
      { gas := 21000, payload := [0] }
      { toyTxn with gas := 21000, gas_price := 0 } rfl (by decide) rfl
      (by decide)
  · exact (send_raw_transaction_checks toyBcDeps2 toyBcCfg 5
      (ChainState.new toyBcDeps2) [21000, 2]).2.2.2.2
      { gas := 21000, payload := [2] }
      { toyTxn with gas := 21000, gas_price := 2 } rfl (by decide) rfl
      (by decide)

/-! ## Claim C3: rejection is side-effect free -/

/-- Claim C3: whenever `send_raw_transaction` returns an error — a
validation rejection or an execution failure reported by the engine during
mining — the chain state is unchanged: the best block number keeps its prior
value and no block, transaction record, or receipt is added. -/
theorem send_raw_transaction_error_no_mutation (deps : BcDeps) (cfg : BcCfg)
    (ts : Nat) (s s' : ChainState) (raw : List Nat) (e : BcError)
    (hsend : Blockchain.send_raw_transaction deps cfg ts s raw =
      (s', BcResult.err e)) :
    s' = s ∧
    Blockchain.best_block_number s' = Blockchain.best_block_number s ∧
    s'.blocks = s.blocks ∧
    s'.block_number_to_hash = s.block_number_to_hash ∧
    s'.transactions = s.transactions ∧
    s'.receipts = s.receipts := by
  have hss : s' = s := by
    unfold Blockchain.send_raw_transaction at hsend
    split at hsend
    · injection hsend with h1 h2
      exact h1.symm
    · split at hsend
      · injection hsend with h1 h2
        exact h1.symm
      · split at hsend
        · injection hsend with h1 h2
          exact h1.symm
        · split at hsend
          · injection hsend with h1 h2
            exact h1.symm
          · exact (mine_block_err_inv deps cfg ts s s' _ e hsend).1
  subst hss
  exact ⟨rfl, rfl, rfl, rfl, rfl, rfl⟩

/-- Witness for claim C3: a gas-limit rejection at a concrete input leaves
the concrete genesis state unchanged. -/
theorem send_raw_transaction_error_no_mutation_witness :
    (ChainState.new toyBcDeps2) = (ChainState.new toyBcDeps2) ∧
    Blockchain.best_block_number (ChainState.new toyBcDeps2) =
      Blockchain.best_block_number (ChainState.new toyBcDeps2) ∧
    (ChainState.new toyBcDeps2).blocks = (ChainState.new toyBcDeps2).blocks ∧
    (ChainState.new toyBcDeps2).block_number_to_hash =
      (ChainState.new toyBcDeps2).block_number_to_hash ∧
    (ChainState.new toyBcDeps2).transactions =
      (ChainState.new toyBcDeps2).transactions ∧
    (ChainState.new toyBcDeps2).receipts =
      (ChainState.new toyBcDeps2).receipts :=
  send_raw_transaction_error_no_mutation toyBcDeps2 toyBcCfg 5
    (ChainState.new toyBcDeps2) (ChainState.new toyBcDeps2) [16000001]
    BcError.gasLimitExceeded rfl

/-! ## Claim C10: cumulative gas equals gas used -/

/-- Claim C10: for every successfully mined transaction the stored receipt
and the returned `ExecutionResult` both have `cumulative_gas_used` equal to
`gas_used`, both set from the single transaction's gas consumption, and the
mined block contains exactly one transaction at index 0. -/
theorem receipt_cumulative_equals_gas (deps : BcDeps) (cfg : BcCfg)
    (ts : Nat) (s s' : ChainState) (txn : SignedTransaction) (h : Nat)
    (res : ExecutionResult)
    (hmine : Blockchain.mine_block deps cfg ts s txn =
      (s', BcResult.ok (h, res))) :
    res.cumulative_gas_used = res.gas_used ∧
    (∃ r, s'.receipts h = some r ∧
      r.cumulative_gas_used = r.gas_used ∧
      r.gas_used = res.gas_used ∧ r.transaction_index = 0) ∧
    (∃ b, s'.get_block_by_number s'.block_number = some b ∧
      ∃ lt, b.transactions = [lt] ∧ lt.transaction_index = 0) := by
  obtain ⟨best, receipt, output, mkvs, code, hbest, happly, hout, hh, hres,
    hs'⟩ := mine_block_ok_inv deps cfg ts s s' txn h res hmine
  subst hs'
  subst hh
  subst hres
  refine ⟨rfl, ⟨minedReceipt deps s txn receipt, ?_, rfl, rfl, rfl⟩,
    ⟨minedBlock deps cfg ts s txn best receipt, ?_, minedTxn deps s txn,
      rfl, rfl⟩⟩
  · simp [minedState, mapInsert]
  · simp [minedState, ChainState.get_block_by_number, mapInsert]

/-- Witness for claim C10 at a concrete mined transaction. -/
theorem receipt_cumulative_equals_gas_witness :
    (minedResult toyReceipt [] 1).cumulative_gas_used =
      (minedResult toyReceipt [] 1).gas_used ∧
    ∃ r, ((Blockchain.mine_block toyBcDeps toyBcCfg 5
        (ChainState.new toyBcDeps) toyTxn).1).receipts toyTxn.hash = some r ∧
      r.cumulative_gas_used = r.gas_used ∧
      r.gas_used = (minedResult toyReceipt [] 1).gas_used ∧
      r.transaction_index = 0 := by
  have h := receipt_cumulative_equals_gas toyBcDeps toyBcCfg 5
    (ChainState.new toyBcDeps)
    ((Blockchain.mine_block toyBcDeps toyBcCfg 5 (ChainState.new toyBcDeps)
      toyTxn).1) toyTxn toyTxn.hash
    (minedResult toyReceipt [] 1) rfl
  exact ⟨h.1, h.2.1⟩

/-! ## Claim C9: log query -/

/-- The log entries of the block stored at a given number (empty when no
block is stored there) — the claim-side description of what the log query
ranges over. -/
def numberLogs (s : ChainState) (i : Nat) : List LocalizedLogEntry :=
  match s.get_block_by_number i with
  | some b => b.logs
  | none => []

/-- Any block retrieved through `get_block` has number at most the best
block number. -/
theorem get_block_number_le (deps : BcDeps) (s : ChainState)
    (hinv : ChainInv deps s) (id : BlockId) (b : EthereumBlock)
    (hb : Blockchain.get_block s id = some b) :
    b.number ≤ s.block_number := by
  rcases id with h | n | _ | _ <;>
    simp only [Blockchain.get_block, ChainState.get_block_by_number] at hb
  · exact hinv.numbers h b hb
  · rcases hn : s.block_number_to_hash n with _ | key <;> rw [hn] at hb
    · simp at hb
    · exact hinv.numbers key b hb
  · rcases hn : s.block_number_to_hash s.block_number with _ | key <;>
      rw [hn] at hb
    · simp at hb
    · exact hinv.numbers key b hb
  · rcases hn : s.block_number_to_hash 0 with _ | key <;> rw [hn] at hb
    · simp at hb
    · exact hinv.numbers key b hb

/-- Entries of `numberLogs` carry their block's number. -/
theorem numberLogs_block_number (deps : BcDeps) (s : ChainState)
    (hinv : ChainInv deps s) (i : Nat) (x : LocalizedLogEntry)
    (hx : x ∈ numberLogs s i) : x.block_number = i := by
  unfold numberLogs at hx
  rcases hb : s.get_block_by_number i with _ | b <;> rw [hb] at hx
  · simp at hx
  · by_cases hi : i ≤ s.block_number
    · obtain ⟨b', hb', -, -, -, -, hlogs⟩ := hinv.get_by_number hi
      rw [hb] at hb'
      injection hb' with hb'
      subst hb'
      exact hlogs x hx
    · rw [ChainState.get_block_by_number,
        hinv.above i (by omega)] at hb
      simp at hb

/-- Fetching every existing block number succeeds, and the concatenation of
the fetched blocks' logs is the concatenation over `numberLogs`. -/
theorem fetchBlocks_ok (deps : BcDeps) (s : ChainState)
    (hinv : ChainInv deps s) (ns : List Nat)
    (hns : ∀ n ∈ ns, n ≤ s.block_number) :
    ∃ bs, Blockchain.fetchBlocks s ns = BcResult.ok bs ∧
      bs.flatMap (fun b => b.logs) = ns.flatMap (numberLogs s) := by
  induction ns with
  | nil => exact ⟨[], rfl, rfl⟩
  | cons n rest ih =>
    have hn : n ≤ s.block_number := hns n (by simp)
    obtain ⟨b, hb, -⟩ := hinv.get_by_number hn
    obtain ⟨bs, hbs, hflat⟩ := ih (fun m hm => hns m (by simp [hm]))
    refine ⟨b :: bs, ?_, ?_⟩
    · unfold Blockchain.fetchBlocks
      rw [hb, hbs]
    · simp only [List.flatMap_cons, hflat, numberLogs, hb]

/-- A stable sort of an already block-number-sorted list is the identity. -/
theorem sortByBn_sorted_id (l : List LocalizedLogEntry)
    (h : l.Pairwise (fun a b => a.block_number ≤ b.block_number)) :
    Blockchain.sortByBn l = l := by
  induction l with
  | nil => rfl
  | cons x xs ih =>
    rw [Blockchain.sortByBn, ih (List.Pairwise.of_cons h)]
    cases xs with
    | nil => rfl
    | cons y ys =>
      rw [Blockchain.insertByBn,
        if_pos ((List.pairwise_cons.mp h).1 y (by simp))]

/-- Concatenating per-number log lists over an ascending number list yields
a list sorted by block number. -/
theorem pairwise_key_flatMap (ns : List Nat)
    (g : Nat → List LocalizedLogEntry)
    (hns : ns.Pairwise (· ≤ ·))
    (hg : ∀ i x, x ∈ g i → x.block_number = i) :
    (ns.flatMap g).Pairwise
      (fun a b => a.block_number ≤ b.block_number) := by
  induction ns with
  | nil => simp
  | cons n rest ih =>
    rw [List.flatMap_cons, List.pairwise_append]
    refine ⟨?_, ih (List.Pairwise.of_cons hns), ?_⟩
    · apply List.pairwise_of_forall_mem_list
      intro a ha b hb
      rw [hg n a ha, hg n b hb]
    · intro a ha b hb
      obtain ⟨m, hm, hbm⟩ := List.mem_flatMap.mp hb
      rw [hg n a ha, hg m b hbm]
      exact (List.pairwise_cons.mp hns).1 m hm

/-- Ascending ranges are pairwise ordered. -/
theorem pairwise_le_range' (s n : Nat) :
    (List.range' s n).Pairwise (· ≤ ·) := by
  induction n generalizing s with
  | zero => simp
  | succ m ih =>
    rw [List.range'_succ, List.pairwise_cons]
    refine ⟨?_, ih (s + 1)⟩
    intro a ha
    obtain ⟨i, -, hi⟩ := List.mem_range'.mp ha
    omega

/-- Claim C9: `logs` fails with a "block not found" error when the from- or
to-block identifier does not resolve to an existing block; otherwise it
returns exactly the log entries of blocks from-block through to-block
inclusive that match the filter's predicate, sorted ascending by block
number (every returned entry matches the predicate and lies in the
range). -/
theorem logs_filter_correct (deps : BcDeps) (s : ChainState)
    (flt : Blockchain.Filter) (hinv : ChainInv deps s) :
    ((Blockchain.get_block s flt.from_block = none ∨
      Blockchain.get_block s flt.to_block = none) →
      Blockchain.logs s flt = BcResult.err BcError.blockNotFound) ∧
    (∀ bFrom bTo,
      Blockchain.get_block s flt.from_block = some bFrom →
      Blockchain.get_block s flt.to_block = some bTo →
      Blockchain.logs s flt = BcResult.ok
        (((List.range' bFrom.number (bTo.number + 1 - bFrom.number)).flatMap
          (numberLogs s)).filter flt.matchesLog) ∧
      (((List.range' bFrom.number (bTo.number + 1 - bFrom.number)).flatMap
        (numberLogs s)).filter flt.matchesLog).Pairwise
        (fun a b => a.block_number ≤ b.block_number) ∧
      (∀ x ∈ ((List.range' bFrom.number
          (bTo.number + 1 - bFrom.number)).flatMap
          (numberLogs s)).filter flt.matchesLog,
        flt.matchesLog x = true ∧ bFrom.number ≤ x.block_number ∧
          x.block_number ≤ bTo.number)) := by
  constructor
  · intro hor
    rcases hf : Blockchain.get_block s flt.from_block with _ | bF
    · simp [Blockchain.logs, Blockchain.get_block_unwrap, hf]
    · rcases hor with hfrom | hto
      · rw [hf] at hfrom
        simp at hfrom
      · simp [Blockchain.logs, Blockchain.get_block_unwrap, hf, hto]
  · intro bFrom bTo hfrom hto
    have hto_le : bTo.number ≤ s.block_number :=
      get_block_number_le deps s hinv flt.to_block bTo hto
    have hns_le : ∀ n ∈ List.range' bFrom.number
        (bTo.number + 1 - bFrom.number), n ≤ s.block_number := by
      intro n hn
      obtain ⟨i, hi, hni⟩ := List.mem_range'.mp hn
      omega
    obtain ⟨bs, hbs, hflat⟩ := fetchBlocks_ok deps s hinv _ hns_le
    have hpair := pairwise_key_flatMap
      (List.range' bFrom.number (bTo.number + 1 - bFrom.number))
      (numberLogs s)
      (pairwise_le_range' bFrom.number (bTo.number + 1 - bFrom.number))
      (fun i x hx => numberLogs_block_number deps s hinv i x hx)
    have hpairf := List.Pairwise.filter flt.matchesLog hpair
    refine ⟨?_, hpairf, ?_⟩
    · simp only [Blockchain.logs, Blockchain.get_block_unwrap, hfrom, hto]
      rw [hbs]
      dsimp only
      rw [hflat, sortByBn_sorted_id _ hpairf]
    · intro x hx
      obtain ⟨hmem, hmatch⟩ := List.mem_filter.mp hx
      obtain ⟨i, hi, hxi⟩ := List.mem_flatMap.mp hmem
      obtain ⟨j, hj, hij⟩ := List.mem_range'.mp hi
      have hbn := numberLogs_block_number deps s hinv i x hxi
      refine ⟨hmatch, ?_, ?_⟩ <;> omega

/-- Filter used to witness the log-query claim: whole chain, all entries. -/
def toyFilter : Blockchain.Filter where
  from_block := BlockId.earliest
  to_block := BlockId.latest
  matchesLog := fun _ => true

/-- Witness for claim C9 on the concrete genesis chain. -/
theorem logs_filter_correct_witness :
    Blockchain.logs (ChainState.new toyBcDeps) toyFilter =
      BcResult.ok (((List.range'
        (EthereumBlock.new toyBcDeps 0 0 0 0 BLOCK_GAS_LIMIT 0).number
        ((EthereumBlock.new toyBcDeps 0 0 0 0 BLOCK_GAS_LIMIT 0).number + 1 -
          (EthereumBlock.new toyBcDeps 0 0 0 0 BLOCK_GAS_LIMIT 0).number)
        ).flatMap
        (numberLogs (ChainState.new toyBcDeps))).filter
        toyFilter.matchesLog) := by
  have h := (logs_filter_correct toyBcDeps (ChainState.new toyBcDeps)
    toyFilter (genesis_chainInv toyBcDeps)).2
    (EthereumBlock.new toyBcDeps 0 0 0 0 BLOCK_GAS_LIMIT 0)
    (EthereumBlock.new toyBcDeps 0 0 0 0 BLOCK_GAS_LIMIT 0) rfl rfl
  exact h.1
